import Mathlib

/-!
Verification of the style-finder-api extraction pipeline.

This file contains a shallow embedding of the extraction and normalization
core of the repository (color normalizer, CSS function tokenizer, gradient
parser, color collector, typography grouper) together with theorems that
settle the frozen claims about the specification.

Modelling conventions:
* JavaScript strings are Lean `String`s; all inputs in scope are ASCII,
  where the `js`-prefixed primitive embeddings below agree with their JS
  counterparts.
* JS numbers appearing here are integers (color channels, counters) modelled
  as `Nat`/`Int`, or decimal literals modelled exactly as `Rat`.  The float
  comparator divisions by the positive constant 1000 are order preserving and
  are therefore dropped when only the sign of a comparator matters.
* `Array.prototype.sort` with a comparator `c` is modelled as a stable
  insertion sort with the relation `c a b <= 0`; per ECMA-262 a NaN comparator
  value is coerced to `+0`, which the embedding makes explicit in each
  comparator.
* JS `Set` iteration order is insertion order; it is modelled by
  first-occurrence deduplication of lists.
-/

set_option maxRecDepth 100000

namespace StyleFinder

/-! ### Generic string and list helpers (JS primitive semantics) -/

/-- ASCII letter test, both cases (regex `[a-z]` with the `i` flag). -/
def isAsciiLetter (c : Char) : Bool :=
  c.isAlpha

/-- Hex digit test, case insensitive (regex `[0-9a-f]` with the `i` flag). -/
def isHexDigitCI (c : Char) : Bool :=
  c.isDigit || (c ≥ 'a' && c ≤ 'f') || (c ≥ 'A' && c ≤ 'F')

/-- Lowercase hex digit test (regex `[0-9a-f]` without flags). -/
def isLowerHexDigit (c : Char) : Bool :=
  c.isDigit || (c ≥ 'a' && c ≤ 'f')

/-- `pat` occurs at the start of `l` (Boolean list prefix test). -/
def listStartsWith : List Char → List Char → Bool
  | _, [] => true
  | [], _ :: _ => false
  | a :: as, b :: bs => a = b && listStartsWith as bs

/-- `s.startsWith(pat)`.  (Defined on the character lists so that it reduces
by kernel computation; the core library version is loop-based.) -/
def jsStartsWith (s pat : String) : Bool :=
  listStartsWith s.data pat.data

/-- `s.endsWith(pat)`. -/
def jsEndsWith (s pat : String) : Bool :=
  listStartsWith s.data.reverse pat.data.reverse

/-- `s.trim()`: strips whitespace from both ends (all inputs in scope are
ASCII, where JS and `Char.isWhitespace` agree). -/
def jsTrim (s : String) : String :=
  String.mk (((s.data.dropWhile Char.isWhitespace).reverse.dropWhile
    Char.isWhitespace).reverse)

/-- `s.toLowerCase()` for ASCII strings. -/
def jsToLower (s : String) : String :=
  String.mk (s.data.map Char.toLower)

/-- `s.split(',')`: never empty, keeps empty fields. -/
def splitCommaAux : List Char → List Char → List String
  | [], cur => [String.mk cur.reverse]
  | c :: rest, cur =>
    if c = ',' then String.mk cur.reverse :: splitCommaAux rest []
    else splitCommaAux rest (c :: cur)

/-- `s.split(',')` on strings. -/
def jsSplitComma (s : String) : List String :=
  splitCommaAux s.data []

/-- `list.join('|')`. -/
def joinBar : List String → String
  | [] => ""
  | [x] => x
  | x :: y :: rest => x ++ "|" ++ joinBar (y :: rest)

/-- `String.prototype.includes`: `pat` occurs somewhere inside `l`. -/
def hasSubstrL (pat : List Char) : List Char → Bool
  | [] => pat.isEmpty
  | c :: t => listStartsWith (c :: t) pat || hasSubstrL pat t

/-- `s.includes(pat)` on strings. -/
def strIncludes (s pat : String) : Bool :=
  hasSubstrL pat.data s.data

/-- One step of the stable sort: insert `x` in front of the first element `y`
with `r x y` (`r x y` reads "`x` may stay before `y`", i.e. comparator
value `<= 0`). -/
def jsOrderedInsert (r : α → α → Bool) (x : α) : List α → List α
  | [] => [x]
  | y :: ys => if r x y then x :: y :: ys else y :: jsOrderedInsert r x ys

/-- Stable sort modelling `Array.prototype.sort` with comparator relation
`r a b = (c a b <= 0)`.  Elements are inserted from the right, which keeps
the original relative order of elements the comparator calls equal. -/
def jsSort (r : α → α → Bool) : List α → List α
  | [] => []
  | x :: xs => jsOrderedInsert r x (jsSort r xs)

/-- First-occurrence deduplication keyed by `key`, modelling insertion into a
JS `Set` of key strings (insertion order preserved, first occurrence wins). -/
def dedupByKey (key : α → String) : List String → List α → List α
  | _, [] => []
  | seen, c :: rest =>
    if key c ∈ seen then dedupByKey key seen rest
    else c :: dedupByKey key (key c :: seen) rest

/-- `String.prototype.indexOf` for a single character: first index, if any. -/
def jsIndexOfChar (s : String) (c : Char) : Option Nat :=
  s.data.findIdx? (fun x => x = c)

/-- `String.prototype.lastIndexOf` for a single character. -/
def jsLastIndexOfChar (s : String) (c : Char) : Option Nat :=
  match (s.data.reverse.findIdx? (fun x => x = c)) with
  | none => none
  | some i => some (s.data.length - 1 - i)

/-- `String.prototype.substring`: clamps both indices to the string length and
swaps them when `a > b`. -/
def jsSubstring (s : String) (a b : Nat) : String :=
  let a' := min a s.data.length
  let b' := min b s.data.length
  let lo := min a' b'
  let hi := max a' b'
  String.mk ((s.data.drop lo).take (hi - lo))

/-- Decimal value of a digit string (used on maximal digit runs, where JS
`parseInt` is exact). -/
def decVal (l : List Char) : Nat :=
  l.foldl (fun a c => a * 10 + (c.toNat - '0'.toNat)) 0

/-- Maximal runs of decimal digits, as produced by matching `/\d+/g`. -/
def digitRunsAux : List Char → List Char → List String
  | [], cur => if cur.isEmpty then [] else [String.mk cur.reverse]
  | c :: rest, cur =>
    if c.isDigit then digitRunsAux rest (c :: cur)
    else if cur.isEmpty then digitRunsAux rest []
    else String.mk cur.reverse :: digitRunsAux rest []

/-- `s.match(/\d+/g)`, returning `[]` instead of `null` when nothing matches. -/
def matchDigitRuns (s : String) : List String :=
  digitRunsAux s.data []

/-! ### Color utilities (src/utils/colorUtils.js) -/

/-- Value of one hex digit character (either case). -/
def hexDigitVal (c : Char) : Nat :=
  if c.isDigit then c.toNat - '0'.toNat
  else if c ≥ 'a' && c ≤ 'f' then c.toNat - 'a'.toNat + 10
  else c.toNat - 'A'.toNat + 10

/-- `parseInt(s, 16)`: value of the leading run of hex digits, `none` for NaN.
(The whitespace/sign/`0x` prefixes JS also accepts never occur here: inputs
are slices of hex color literals.) -/
def parseIntHex (s : String) : Option Nat :=
  let ds := s.data.takeWhile isHexDigitCI
  if ds.isEmpty then none
  else some (ds.foldl (fun a c => a * 16 + hexDigitVal c) 0)

/-- Renders a JS number that may be NaN inside a template literal. -/
def numOrNaN : Option Nat → String
  | some n => toString n
  | none => "NaN"

/-- `hexToRgb` (colorUtils.js:61-78): strips one leading `#`, parses either the
3-digit form by digit duplication or the 6-digit form pairwise, and renders
the template literal `RGB(r, g, b)`. -/
def hexToRgb (hex : String) : String :=
  let h := if jsStartsWith hex "#" then String.mk (hex.data.drop 1) else hex
  let (r, g, b) :=
    if h.data.length = 3 then
      (parseIntHex (String.mk [h.data.getD 0 ' ', h.data.getD 0 ' ']),
       parseIntHex (String.mk [h.data.getD 1 ' ', h.data.getD 1 ' ']),
       parseIntHex (String.mk [h.data.getD 2 ' ', h.data.getD 2 ' ']))
    else
      (parseIntHex (jsSubstring h 0 2),
       parseIntHex (jsSubstring h 2 4),
       parseIntHex (jsSubstring h 4 6))
  "RGB(" ++ numOrNaN r ++ ", " ++ numOrNaN g ++ ", " ++ numOrNaN b ++ ")"

/-- `parseRgb` (colorUtils.js:85-94): match `/\d+/g`, require at least three
runs, decode the first three decimally. -/
def parseRgb (rgb : String) : Option (Nat × Nat × Nat) :=
  let rgbValues := matchDigitRuns rgb
  if rgbValues.length < 3 then none
  else some (decVal (rgbValues.getD 0 "").data,
             decVal (rgbValues.getD 1 "").data,
             decVal (rgbValues.getD 2 "").data)

/-- Hex digit character of `n % 16`-style values, lowercase as produced by
`Number.prototype.toString(16)`. -/
def hexDigitChar (n : Nat) : Char :=
  if n < 10 then Char.ofNat ('0'.toNat + n) else Char.ofNat ('a'.toNat + (n - 10))

/-- Fueled helper for `Number.prototype.toString(16)` on naturals. -/
def natToHexAux : Nat → Nat → List Char
  | 0, _ => []
  | fuel + 1, n =>
    if n = 0 then []
    else natToHexAux fuel (n / 16) ++ [hexDigitChar (n % 16)]

/-- `c.toString(16)` for a natural number `c`. -/
def jsToString16 (n : Nat) : String :=
  if n = 0 then "0" else String.mk (natToHexAux (n + 1) n)

/-- `componentToHex` (colorUtils.js:104-107): hex rendering padded to width 2
(only strings of length 1 are padded). -/
def componentToHex (c : Nat) : String :=
  let hex := jsToString16 c
  if hex.length = 1 then "0" ++ hex else hex

/-- `rgbToHex` (colorUtils.js:101-110): `none` models a falsy argument and
yields the sentinel `#000000`. -/
def rgbToHex : Option (Nat × Nat × Nat) → String
  | none => "#000000"
  | some (r, g, b) => "#" ++ componentToHex r ++ componentToHex g ++ componentToHex b

/-- `findClosestColorName` (colorUtils.js:117-142).  The `nearest-color`
dictionary lookup is an external npm package, modelled as an arbitrary total
function `nearest` (`none` models a throw or missing result, both of which
the `try`/`catch` turns into `"Unknown"`). -/
def findClosestColorName (nearest : String → Option String) (colorValue : String) : String :=
  if jsStartsWith colorValue "rgb" then
    match parseRgb colorValue with
    | some t =>
      match nearest (rgbToHex (some t)) with
      | some n => n
      | none => "Unknown"
    | none => "Unknown"
  else if jsStartsWith colorValue "#" then
    match nearest colorValue with
    | some n => n
    | none => "Unknown"
  else "Unknown"

/-- Integer brightness `299*r + 587*g + 114*b`; the source divides by the
positive constant 1000, which does not affect comparator signs. -/
def brightness : Nat × Nat × Nat → Nat
  | (r, g, b) => r * 299 + g * 587 + b * 114

/-! ### Color collector (src/services/colorService.js, `extractColors`) -/

/-- A `{ name, hex, rgb }` record produced by the color collector. -/
structure ColorRecord where
  name : String
  hex : String
  rgb : String
deriving DecidableEq, Repr

/-- Comparator relation of `sortColorsByBrightness` (colorUtils.js:149-161):
`cmp a b <= 0`.  When either `rgb` field fails to parse the comparator
returns 0, so the relation holds and the pair keeps its relative order. -/
def brightnessLeB (a b : ColorRecord) : Bool :=
  match parseRgb a.rgb, parseRgb b.rgb with
  | some x, some y => decide (brightness x ≤ brightness y)
  | _, _ => true

/-- `sortColorsByBrightness` (colorUtils.js:149-161). -/
def sortColorsByBrightness (colors : List ColorRecord) : List ColorRecord :=
  jsSort brightnessLeB colors

/-- The nine color-bearing properties read per element (colorService.js:12-16). -/
def colorProperties : List String :=
  ["color", "background-color", "border-color", "border-top-color",
   "border-right-color", "border-bottom-color", "border-left-color",
   "outline-color", "text-decoration-color"]

/-- The collector filter (colorService.js:29-35): nonempty and not one of the
sentinel non-colors. -/
def isCollectedColor (value : String) : Bool :=
  value ≠ "" && value ≠ "transparent" && value ≠ "none" && value ≠ "inherit" &&
  value ≠ "initial" && value ≠ "currentcolor" && value ≠ "rgba(0, 0, 0, 0)"

/-- The in-page collection pass (colorService.js:9-42).  A snapshot element is
its computed-style accessor `String → String`; values are trimmed, filtered
and added to a `Set` (first-occurrence dedup in insertion order). -/
def extractColorsRaw (snap : List (String → String)) : List String :=
  dedupByKey (fun s => s) []
    (((snap.flatMap fun style => colorProperties.map fun p => jsTrim (style p))).filter
      isCollectedColor)

/-- Processing of one raw color value (colorService.js:45-76). -/
def processColor (nearest : String → Option String) (colorValue : String) : ColorRecord :=
  if jsStartsWith colorValue "#" then
    { name := findClosestColorName nearest colorValue
      hex := colorValue
      rgb := hexToRgb colorValue }
  else if jsStartsWith colorValue "rgb" then
    let rgbValues := matchDigitRuns colorValue
    let hex :=
      if 3 ≤ rgbValues.length then
        rgbToHex (some (decVal (rgbValues.getD 0 "").data,
                        decVal (rgbValues.getD 1 "").data,
                        decVal (rgbValues.getD 2 "").data))
      else "#000000"
    { name := findClosestColorName nearest colorValue
      hex := hex
      rgb := colorValue }
  else
    { name := findClosestColorName nearest colorValue
      hex := "#000000"
      rgb := "RGB(0, 0, 0)" }

/-- `extractColors` (colorService.js:8-91): collect, process, dedup by hex
(first occurrence wins), then sort by brightness. -/
def extractColors (nearest : String → Option String)
    (snap : List (String → String)) : List ColorRecord :=
  let rawColors := extractColorsRaw snap
  let processedColors := rawColors.map (processColor nearest)
  let uniqueProcessedColors := dedupByKey ColorRecord.hex [] processedColors
  sortColorsByBrightness uniqueProcessedColors

/-! ### Gradient parser (src/services/gradientService.js) -/

/-- Result of `extractGradientInfo`; the source field `end` is a Lean keyword
and is embedded as `endVal`. -/
structure GradientInfo where
  start : String
  endVal : String
  type : String
  full : String
deriving DecidableEq, Repr

/-- Reserved gradient keywords rejected as color words
(gradientService.js:50). -/
def gradientKeywords : List String :=
  ["to", "at", "from", "deg", "rad", "grad", "turn", "repeat", "repeating",
   "linear", "radial", "conic"]

/-- Test for `/^#([0-9A-F]{3}){1,2}$/i`: a `#` followed by exactly 3 or 6 hex
digits. -/
def isHex3or6 (color : String) : Bool :=
  match color.data with
  | '#' :: rest => (rest.length = 3 || rest.length = 6) && rest.all isHexDigitCI
  | _ => false

/-- `isValidColor` (gradientService.js:35-55). -/
def isValidColor (color : String) : Bool :=
  if color = "" then false
  else if jsStartsWith color "#" && isHex3or6 color then true
  else if jsStartsWith color "rgb" && strIncludes color "(" && strIncludes color ")" then true
  else if jsStartsWith color "hsl" && strIncludes color "(" && strIncludes color ")" then true
  else if !color.data.isEmpty && color.data.all isAsciiLetter then
    !(gradientKeywords.contains (jsToLower color))
  else false

/-- Regex alternative `#[0-9a-f]{3,8}` (with `i`): a `#` and a greedy run of
3 to 8 hex digits. -/
def tryHexAt : List Char → Option (List Char)
  | '#' :: rest =>
    let ds := (rest.takeWhile isHexDigitCI).take 8
    if 3 ≤ ds.length then some ('#' :: ds) else none
  | _ => none

/-- Strip a (lowercase) pattern case-insensitively from the front. -/
def ciStrip : List Char → List Char → Option (List Char)
  | [], l => some l
  | _ :: _, [] => none
  | p :: ps, c :: cs => if c.toLower = p then ciStrip ps cs else none

/-- Regex alternative `name a? \( [^)]+ \)` (with `i`), e.g. `rgba?\([^)]+\)`:
backtracking tries the variant with `a` first.  Returns the matched slice of
the original text. -/
def tryFnVariant (pre l : List Char) : Option (List Char) :=
  match ciStrip pre l with
  | none => none
  | some rest =>
    let body := rest.takeWhile (fun c => c ≠ ')')
    if body.length = 0 then none
    else
      match rest.drop body.length with
      | ')' :: _ => some (l.take (pre.length + body.length + 1))
      | _ => none

/-- Both variants of `name a? \( [^)]+ \)`. -/
def tryFnAt (name : List Char) (l : List Char) : Option (List Char) :=
  match tryFnVariant (name ++ ['a', '(']) l with
  | some r => some r
  | none => tryFnVariant (name ++ ['(']) l

/-- Regex alternative `[a-z]+` (with `i`): maximal letter run. -/
def tryWordAt (l : List Char) : Option (List Char) :=
  let w := l.takeWhile isAsciiLetter
  if w.length = 0 then none else some w

/-- One position of the color-token regex
`/(#[0-9a-f]{3,8}|rgba?\([^)]+\)|hsla?\([^)]+\)|[a-z]+)(?:\s+\d+%)?/i`
(gradientService.js:117): alternatives are tried in order; the optional
position suffix does not affect the captured group. -/
def tryColorAt (l : List Char) : Option (List Char) :=
  match tryHexAt l with
  | some r => some r
  | none =>
    match tryFnAt ['r', 'g', 'b'] l with
    | some r => some r
    | none =>
      match tryFnAt ['h', 's', 'l'] l with
      | some r => some r
      | none => tryWordAt l

/-- Leftmost match of the color-token regex: try each start position left to
right. -/
def matchColorAux : List Char → Option String
  | [] => none
  | c :: t =>
    match tryColorAt (c :: t) with
    | some r => some (String.mk r)
    | none => matchColorAux t

/-- `part.match(colorRegex)` returning capture group 1 (gradientService.js:117). -/
def matchColorToken (s : String) : Option String :=
  matchColorAux s.data

/-- The depth-tracking comma splitter of `extractColorStops`
(gradientService.js:88-112): a comma separates only at parenthesis depth
exactly 0 (the depth may go negative), parts are trimmed, and a trailing part
is kept only when its trim is nonempty. -/
def splitTopLevelAux : List Char → List String → String → Int → List String
  | [], parts, currentPart, _ =>
    if jsTrim currentPart ≠ "" then parts ++ [jsTrim currentPart] else parts
  | c :: rest, parts, currentPart, depth =>
    if c = '(' then splitTopLevelAux rest parts (currentPart.push c) (depth + 1)
    else if c = ')' then splitTopLevelAux rest parts (currentPart.push c) (depth - 1)
    else if c = ',' ∧ depth = 0 then splitTopLevelAux rest (parts ++ [jsTrim currentPart]) "" depth
    else splitTopLevelAux rest parts (currentPart.push c) depth

/-- The CSS function tokenizer `splitTopLevel` of the spec, as implemented in
`extractColorStops`. -/
def splitTopLevel (s : String) : List String :=
  splitTopLevelAux s.data [] "" 0

/-- Test for the anchored angle regex `/^\d+(\.\d+)?(deg|grad|rad|turn)/`
(gradientService.js:81). -/
def startsWithAngle (s : String) : Bool :=
  let l := s.data
  let ds := l.takeWhile Char.isDigit
  if ds.isEmpty then false
  else
    let rest := l.drop ds.length
    let rest2 :=
      match rest with
      | '.' :: t =>
        let fs := t.takeWhile Char.isDigit
        if fs.isEmpty then rest else t.drop fs.length
      | _ => rest
    listStartsWith rest2 ['d', 'e', 'g'] || listStartsWith rest2 ['g', 'r', 'a', 'd'] ||
    listStartsWith rest2 ['r', 'a', 'd'] || listStartsWith rest2 ['t', 'u', 'r', 'n']

/-- Drop everything up to and including the first comma, if a comma exists,
then trim (gradientService.js:74-86, applied to direction and angle
prefixes). -/
def dropLeadingSegment (s : String) : String :=
  match s.data.findIdx? (fun x => x = ',') with
  | none => s
  | some i => jsTrim (String.mk (s.data.drop (i + 1)))

/-- `extractColorStops` (gradientService.js:58-122). -/
def extractColorStops (gradientValue : String) : List String :=
  match jsIndexOfChar gradientValue '(' with
  | none => []
  | some openParenIndex =>
    match jsLastIndexOfChar gradientValue ')' with
    | none => []
    | some closeParenIndex =>
      let gradientContent :=
        jsTrim (jsSubstring gradientValue (openParenIndex + 1) closeParenIndex)
      let colorStopsPart :=
        if jsStartsWith gradientContent "to " then dropLeadingSegment gradientContent
        else if startsWithAngle gradientContent then dropLeadingSegment gradientContent
        else gradientContent
      let parts := splitTopLevel colorStopsPart
      (parts.filterMap matchColorToken).filter isValidColor

/-- The type classification chain of `extractGradientInfo`
(gradientService.js:130-135), in source order: the non-repeating names are
tested first. -/
def gradientType (gradientValue : String) : String :=
  if strIncludes gradientValue "linear-gradient" then "linear"
  else if strIncludes gradientValue "radial-gradient" then "radial"
  else if strIncludes gradientValue "conic-gradient" then "conic"
  else if strIncludes gradientValue "repeating-linear-gradient" then "repeating-linear"
  else if strIncludes gradientValue "repeating-radial-gradient" then "repeating-radial"
  else if strIncludes gradientValue "repeating-conic-gradient" then "repeating-conic"
  else "other"

/-- `extractGradientInfo` (gradientService.js:125-150). -/
def extractGradientInfo (gradientValue : String) : Option GradientInfo :=
  if gradientValue = "" then none
  else if !strIncludes gradientValue "gradient" then none
  else
    let type := gradientType gradientValue
    let colorStops := extractColorStops gradientValue
    if colorStops.length < 2 then none
    else some { start := colorStops.headD ""
                endVal := colorStops.getLastD ""
                type := type
                full := jsTrim gradientValue }

/-! ### JS `parseFloat` -/

/-- Exponent part of `parseFloat`: optional sign and digits; an `e` not
followed by digits contributes exponent 0 (it is not consumed). -/
def parseExpPart (l : List Char) : Int :=
  let (es, l1) : Int × List Char :=
    match l with
    | '-' :: t => (-1, t)
    | '+' :: t => (1, t)
    | _ => (1, l)
  let ds := l1.takeWhile Char.isDigit
  if ds.isEmpty then 0 else es * (decVal ds : Int)

/-- JS `parseFloat`, exactly: leading whitespace, optional sign, decimal
digits with optional fraction and exponent.  `none` models NaN.  The parsed
value `sign * (int + frac/10^fl) * 10^expo` is represented exactly as the
pair `(mantissa, exponent)` with value `mantissa * 10 ^ exponent`, where
`mantissa = sign * (int * 10^fl + frac)` and `exponent = expo - fl`; this
keeps every arithmetic step on `Int`.  (`Infinity` literals and float64
rounding are not modelled; no input in this development produces them.) -/
def jsParseFloatRep (s : String) : Option (Int × Int) :=
  let l := s.data.dropWhile Char.isWhitespace
  let (sign, l1) : Int × List Char :=
    match l with
    | '-' :: t => (-1, t)
    | '+' :: t => (1, t)
    | _ => (1, l)
  let intDigits := l1.takeWhile Char.isDigit
  let l2 := l1.dropWhile Char.isDigit
  let (fracDigits, l3) : List Char × List Char :=
    match l2 with
    | '.' :: t => (t.takeWhile Char.isDigit, t.dropWhile Char.isDigit)
    | _ => ([], l2)
  if intDigits.isEmpty && fracDigits.isEmpty then none
  else
    let mantissa : Int :=
      sign * ((decVal intDigits : Int) * 10 ^ fracDigits.length + (decVal fracDigits : Int))
    let expo : Int :=
      match l3 with
      | 'e' :: t => parseExpPart t
      | 'E' :: t => parseExpPart t
      | _ => 0
    some (mantissa, expo - (fracDigits.length : Int))

/-- Rational value of a parsed-float representation. -/
def ratOfRep (p : Int × Int) : ℚ := (p.1 : ℚ) * (10 : ℚ) ^ p.2

/-- JS `parseFloat` as a rational (`none` models NaN). -/
def jsParseFloat (s : String) : Option ℚ :=
  (jsParseFloatRep s).map ratOfRep

/-- Decidable comparison of two parsed-float values by cross-scaling with
powers of 10 (`leRep x y` decides `ratOfRep x <= ratOfRep y`). -/
def leRep (x y : Int × Int) : Bool :=
  if x.2 ≤ y.2 then decide (x.1 ≤ y.1 * 10 ^ (y.2 - x.2).toNat)
  else decide (x.1 * 10 ^ (x.2 - y.2).toNat ≤ y.1)

/-! ### Typography grouper (src/services/typographyService.js, first variant,
the module imported by scrapeController.js) -/

/-- A snapshot element for the typography walk: tag name, class attribute and
computed-style accessor.  (The SVG `className.baseVal` fallback of
typographyService.js:45-46 is absorbed into the `className` string.) -/
structure TElement where
  tagName : String
  className : String
  style : String → String

/-- A typography group record: tag, className, the eight collected properties
and the duplicate count (typographyService.js:70-75). -/
structure TGroup where
  tag : String
  className : String
  fontFamily : String
  fontSize : String
  fontWeight : String
  lineHeight : String
  letterSpacing : String
  textTransform : String
  fontStyle : String
  textDecoration : String
  count : Nat
deriving DecidableEq, Repr

/-- The relevant-tag allowlist (typographyService.js:20-25). -/
def relevantTags : List String :=
  ["p", "span", "h1", "h2", "h3", "h4", "h5", "h6",
   "a", "button", "label", "li", "th", "td", "caption",
   "blockquote", "figcaption", "cite", "q", "strong", "em",
   "small", "pre", "code", "div"]

/-- `font-family` post-processing (typographyService.js:53-60): first
comma-separated entry, trimmed, surrounding matching quotes stripped. -/
def processFontFamily (raw : String) : String :=
  let val := jsTrim ((jsSplitComma (jsTrim raw)).getD 0 "")
  if (jsStartsWith val "\"" && jsEndsWith val "\"") ||
     (jsStartsWith val "'" && jsEndsWith val "'") then
    jsSubstring val 1 (val.data.length - 1)
  else val

/-- The eight property values collected for one element
(typographyService.js:51-62). -/
structure StyleVals where
  fontFamily : String
  fontSize : String
  fontWeight : String
  lineHeight : String
  letterSpacing : String
  textTransform : String
  fontStyle : String
  textDecoration : String
deriving DecidableEq, Repr

/-- Read and post-process the eight typography properties of one element. -/
def computeStyle (style : String → String) : StyleVals :=
  { fontFamily := processFontFamily (style "font-family")
    fontSize := jsTrim (style "font-size")
    fontWeight := jsTrim (style "font-weight")
    lineHeight := jsTrim (style "line-height")
    letterSpacing := jsTrim (style "letter-spacing")
    textTransform := jsTrim (style "text-transform")
    fontStyle := jsTrim (style "font-style")
    textDecoration := jsTrim (style "text-decoration") }

/-- The grouping key (typographyService.js:65): tag and the five grouping
properties joined with `|`. -/
def groupKey (tag : String) (sv : StyleVals) : String :=
  tag ++ "|" ++ joinBar
    [sv.fontFamily, sv.fontSize, sv.fontWeight, sv.lineHeight, sv.letterSpacing]

/-- The group record created by the first element of a key
(typographyService.js:70-75). -/
def mkGroup (tag className : String) (sv : StyleVals) : TGroup :=
  { tag := tag
    className := className
    fontFamily := sv.fontFamily
    fontSize := sv.fontSize
    fontWeight := sv.fontWeight
    lineHeight := sv.lineHeight
    letterSpacing := sv.letterSpacing
    textTransform := sv.textTransform
    fontStyle := sv.fontStyle
    textDecoration := sv.textDecoration
    count := 1 }

/-- `tag.toLowerCase()` for an element. -/
def elTag (el : TElement) : String := jsToLower el.tagName

/-- Grouping key of an element. -/
def elKey (el : TElement) : String := groupKey (elTag el) (computeStyle el.style)

/-- Group record an element would create. -/
def mkGroupOf (el : TElement) : TGroup :=
  mkGroup (elTag el) (jsTrim el.className) (computeStyle el.style)

/-- Lookup in a JS object modelled as an insertion-ordered association list. -/
def assocFind {α : Type} (k : String) : List (String × α) → Option α
  | [] => none
  | (k', v) :: rest => if k' = k then some v else assocFind k rest

/-- Update the entry of key `k` in place. -/
def assocUpdate {α : Type} (k : String) (f : α → α) : List (String × α) → List (String × α)
  | [] => []
  | (k', v) :: rest =>
    if k' = k then (k', f v) :: rest else (k', v) :: assocUpdate k f rest

/-- Mutable state of the element walk: the `groups` object, the `tagCounts`
object (both with JS insertion-order key semantics) and the
`duplicatesRemoved` counter. -/
structure TypState where
  groups : List (String × TGroup)
  tagCounts : List (String × Nat)
  duplicatesRemoved : Nat

/-- `tagCounts[tag] = (tagCounts[tag] || 0) + 1` (typographyService.js:77). -/
def bumpTag (tag : String) (tc : List (String × Nat)) : List (String × Nat) :=
  match assocFind tag tc with
  | some _ => assocUpdate tag (fun n => n + 1) tc
  | none => tc ++ [(tag, 1)]

/-- The per-element body of the walk (typographyService.js:33-78). -/
def typStep (st : TypState) (el : TElement) : TypState :=
  if elTag el ∈ relevantTags then
    let key := elKey el
    let st1 :=
      match assocFind key st.groups with
      | some _ =>
        { st with
            groups := assocUpdate key (fun g => { g with count := g.count + 1 }) st.groups
            duplicatesRemoved := st.duplicatesRemoved + 1 }
      | none => { st with groups := st.groups ++ [(key, mkGroupOf el)] }
    { st1 with tagCounts := bumpTag (elTag el) st1.tagCounts }
  else st

/-- Comparator relation of the font-size sort (typographyService.js:89):
`parseFloat(b['font-size']) - parseFloat(a['font-size']) <= 0`; per ECMA-262
a NaN comparator value counts as `+0`, so any comparison involving an
unparsable size keeps the pair in its current relative order. -/
def typCmpLeB (a b : TGroup) : Bool :=
  match jsParseFloatRep b.fontSize, jsParseFloatRep a.fontSize with
  | some x, some y => leRep x y
  | _, _ => true

/-- The result of `extractTypography`.  The stylesheet tallies
(`externalCSSCount`, `inlineCSSCount`, `typographyRulesCount`,
typographyService.js:92-113) depend only on `document.styleSheets`, not on the
element walk, and are outside the claims; they are omitted from the
embedding. -/
structure TypographyResult where
  typography : List TGroup
  duplicatesRemoved : Nat
  tagCounts : List (String × Nat)
  totalTagsFound : Nat
deriving Repr

/-- `extractTypography` (typographyService.js:6-128, first variant): walk the
elements, collect `Object.values(groups)` in insertion order and sort by
font size descending. -/
def extractTypography (snap : List TElement) : TypographyResult :=
  let st := snap.foldl typStep ⟨[], [], 0⟩
  let typography := jsSort typCmpLeB (st.groups.map (fun kg => kg.2))
  { typography := typography
    duplicatesRemoved := st.duplicatesRemoved
    tagCounts := st.tagCounts
    totalTagsFound := st.tagCounts.length }

/-! ### Spec-side definitions, used to state the claims -/

/-- The spec pattern `#[0-9a-f]{6}`: a `#` followed by exactly six lowercase
hex digits. -/
def isCanonicalHex6 (s : String) : Bool :=
  match s.data with
  | '#' :: rest => rest.length = 6 && rest.all isLowerHexDigit
  | _ => false

/-- Spec-side splitter for the CSS function tokenizer: cut the character list
exactly at the commas whose preceding prefix has parenthesis depth 0, where
`(` increments and `)` decrements the depth while scanning left to right
(spec section 4.2).  The separating commas belong to no segment. -/
def cutAtTopCommas (depth : Int) : List Char → List (List Char)
  | [] => [[]]
  | c :: rest =>
    if c = ',' ∧ depth = 0 then [] :: cutAtTopCommas depth rest
    else
      let d' := if c = '(' then depth + 1 else if c = ')' then depth - 1 else depth
      match cutAtTopCommas d' rest with
      | [] => [[c]]
      | seg :: segs => (c :: seg) :: segs

/-- Drop the last segment when it is blank (the tokenizer emits a trailing
segment only when its trim is nonempty). -/
def dropTrailingBlank : List String → List String
  | [] => []
  | [s] => if s = "" then [] else [s]
  | s :: rest => s :: dropTrailingBlank rest

/-- The tokenizer as worded by the spec: segments are the maximal runs
between depth-0 commas, each trimmed, with a blank trailing segment
omitted. -/
def splitTopLevelSpec (s : String) : List String :=
  dropTrailingBlank ((cutAtTopCommas 0 s.data).map (fun seg => jsTrim (String.mk seg)))

/-- Prepend accumulated characters to the first segment of a cut (proof
device relating tokenizer states to `cutAtTopCommas`). -/
def consHead (pre : List Char) : List (List Char) → List (List Char)
  | [] => [pre]
  | seg :: segs => (pre ++ seg) :: segs

/-- Boolean relevant-tag test. -/
def consideredTag (el : TElement) : Bool := decide (elTag el ∈ relevantTags)

/-- Group record built from a nonempty run of key-sharing elements: fields of
the first, count of all. -/
def firstGroupOf : List TElement → Option TGroup
  | [] => none
  | e :: es => some { mkGroupOf e with count := es.length + 1 }

/-- Spec-side characterization of a typography group: the group of key `k`
carries the className and the eight property values of the FIRST considered
element with key `k`, and counts every considered element with that key. -/
def specFirstGroup (els : List TElement) (k : String) : Option TGroup :=
  firstGroupOf ((els.filter consideredTag).filter (fun el => elKey el == k))

/-- Brightness of a record as the claims speak of it: the weighted sum of the
record's parsed RGB components (0 when the components do not parse). -/
def recBrightness (c : ColorRecord) : Nat :=
  match parseRgb c.rgb with
  | some t => brightness t
  | none => 0

/-- "`a` is at most as bright as `b`", defined only through the parsed RGB
components of the two records (vacuous when either fails to parse). -/
def recBrightLE (a b : ColorRecord) : Prop :=
  ∀ x y, parseRgb a.rgb = some x → parseRgb b.rgb = some y →
    brightness x ≤ brightness y

/-- Numeric rank of a typography group: the parsed leading float of its
font size (0 for unparsable sizes; only used under an all-parse hypothesis). -/
def typRank (g : TGroup) : ℚ :=
  (jsParseFloat g.fontSize).getD 0

/-- A fixed trivial dictionary for witnesses: every lookup misses. -/
def nearest0 : String → Option String := fun _ => none

/-- A snapshot whose only collected color value is the 3-digit hex `#abc`. -/
def snapHex3 : List (String → String) :=
  [fun p => if p = "color" then "#abc" else ""]

/-- A snapshot whose only collected color value is the 6-digit hex `#aabbcc`. -/
def snapHex6 : List (String → String) :=
  [fun p => if p = "color" then "#aabbcc" else ""]

/-- A snapshot collecting the same color in two textual forms. -/
def snapC5 : List (String → String) :=
  [fun p => if p = "color" then "rgb(1, 2, 3)"
    else if p = "background-color" then "rgb(1,2,3)" else ""]

/-- A snapshot collecting white, an unparsable hex and black, in this order. -/
def snapC8 : List (String → String) :=
  [fun p => if p = "color" then "#ffffff"
    else if p = "background-color" then "#zzz"
    else if p = "border-color" then "#000000" else ""]

/-- A snapshot collecting white before black, both parsable. -/
def snapBW : List (String → String) :=
  [fun p => if p = "color" then "rgb(255, 255, 255)"
    else if p = "background-color" then "rgb(0, 0, 0)" else ""]

/-- Paragraph element with an unparsable font size. -/
def tpNaN : TElement :=
  ⟨"P", "", fun p => if p = "font-size" then "large"
    else if p = "font-family" then "Arial" else ""⟩

/-- Paragraph element with font size `10px` and a different grouping key. -/
def tpTen : TElement :=
  ⟨"P", "", fun p => if p = "font-size" then "10px"
    else if p = "font-family" then "Times" else ""⟩

/-- Paragraph element with font size `20px`. -/
def tpTwenty : TElement :=
  ⟨"P", "", fun p => if p = "font-size" then "20px"
    else if p = "font-family" then "Georgia" else ""⟩

/-- Style accessor shared by the two claim-C2 witness elements. -/
def stC2 : String → String := fun p =>
  if p = "font-size" then "16px"
  else if p = "font-family" then "Arial, sans-serif" else "normal"

/-- First claim-C2 witness element. -/
def tpC2a : TElement := ⟨"P", "cls-a", stC2⟩

/-- Second claim-C2 witness element: same styles, different class. -/
def tpC2b : TElement := ⟨"P", "cls-b", stC2⟩

/-! ### General lemmas -/

theorem listStartsWith_iff (pat : List Char) :
    ∀ l : List Char, listStartsWith l pat = true ↔ ∃ r, l = pat ++ r := by
  induction pat with
  | nil =>
    intro l
    simp [listStartsWith]
  | cons b bs ih =>
    intro l
    cases l with
    | nil =>
      simp [listStartsWith]
    | cons a as =>
      simp only [listStartsWith, Bool.and_eq_true, decide_eq_true_eq, ih as,
        List.cons_append, List.cons.injEq]
      constructor
      · rintro ⟨rfl, r, rfl⟩
        exact ⟨r, rfl, rfl⟩
      · rintro ⟨r, rfl, rfl⟩
        exact ⟨rfl, r, rfl⟩

theorem hasSubstrL_iff (pat : List Char) :
    ∀ l : List Char, hasSubstrL pat l = true ↔ ∃ i, listStartsWith (l.drop i) pat = true := by
  intro l
  induction l with
  | nil =>
    simp only [hasSubstrL, List.isEmpty_iff, List.drop_nil]
    constructor
    · rintro rfl
      exact ⟨0, by simp [listStartsWith]⟩
    · rintro ⟨i, h⟩
      cases pat with
      | nil => rfl
      | cons p ps => simp [listStartsWith] at h
  | cons c t ih =>
    simp only [hasSubstrL, Bool.or_eq_true, ih]
    constructor
    · rintro (h | ⟨i, h⟩)
      · exact ⟨0, h⟩
      · exact ⟨i + 1, h⟩
    · rintro ⟨i, h⟩
      cases i with
      | zero => exact Or.inl h
      | succ j => exact Or.inr ⟨j, h⟩

/-- If a string contains `pre ++ pat` as a substring, it also contains `pat`. -/
theorem hasSubstrL_of_append (pre pat l : List Char)
    (h : hasSubstrL (pre ++ pat) l = true) : hasSubstrL pat l = true := by
  rw [hasSubstrL_iff] at h ⊢
  obtain ⟨i, hi⟩ := h
  rw [listStartsWith_iff] at hi
  obtain ⟨r, hr⟩ := hi
  refine ⟨i + pre.length, ?_⟩
  rw [listStartsWith_iff]
  refine ⟨r, ?_⟩
  calc l.drop (i + pre.length) = (l.drop i).drop pre.length :=
        (List.drop_drop pre.length i l).symm
    _ = ((pre ++ pat) ++ r).drop pre.length := by rw [hr]
    _ = pat ++ r := by rw [List.append_assoc, List.drop_left]

/-! ### Claim C1 -/

/-- C1: the gradient type classifier is claimed to give the `repeating-*`
names precedence over the plain names.  The code tests `linear-gradient`,
`radial-gradient` and `conic-gradient` first, and every value containing
`repeating-X-gradient` also contains `X-gradient` as a substring, so the
three repeating branches are unreachable: the failing input
`repeating-linear-gradient(red, blue)` is classified `"linear"`, and no
value at all is classified `"repeating-linear"`. -/
theorem claim_C1 :
    gradientType "repeating-linear-gradient(red, blue)" = "linear" ∧
    ∀ v : String, gradientType v ≠ "repeating-linear" := by
  constructor
  · rfl
  · intro v
    by_cases h1 : strIncludes v "linear-gradient" = true
    · simp [gradientType, h1]
    · have h4 : ¬ strIncludes v "repeating-linear-gradient" = true := by
        intro hcon
        exact h1 (hasSubstrL_of_append "repeating-".data "linear-gradient".data v.data hcon)
      by_cases h2 : strIncludes v "radial-gradient" = true
      · simp [gradientType, h1, h2]
      · by_cases h3 : strIncludes v "conic-gradient" = true
        · simp [gradientType, h1, h2, h3]
        · by_cases h5 : strIncludes v "repeating-radial-gradient" = true
          · simp [gradientType, h1, h2, h3, h4, h5]
          · by_cases h6 : strIncludes v "repeating-conic-gradient" = true
            · simp [gradientType, h1, h2, h3, h4, h5, h6]
            · simp [gradientType, h1, h2, h3, h4, h5, h6]

/-! ### Claim C9 -/

/-- C9: a collected color value that is neither `#`-prefixed nor
`rgb`-prefixed yields the sentinel record (black hex, `Unknown` name), and
the nearest-name lookup returns `Unknown` on an `rgb`-prefixed value whose
components do not parse; all embedded functions are total, so no failure
propagates to the caller. -/
theorem claim_C9 (nearest : String → Option String) (v w : String)
    (h1 : jsStartsWith v "#" = false) (h2 : jsStartsWith v "rgb" = false)
    (h3 : jsStartsWith w "rgb" = true) (h4 : parseRgb w = none) :
    processColor nearest v = { name := "Unknown", hex := "#000000", rgb := "RGB(0, 0, 0)" } ∧
    findClosestColorName nearest v = "Unknown" ∧
    findClosestColorName nearest w = "Unknown" := by
  refine ⟨?_, ?_, ?_⟩
  · simp [processColor, findClosestColorName, h1, h2]
  · simp [findClosestColorName, h1, h2]
  · simp [findClosestColorName, h3, h4]

/-- Witness for C9 at the named color `red` and the malformed value
`rgb(x)`. -/
theorem claim_C9_witness :
    processColor nearest0 "red" = { name := "Unknown", hex := "#000000", rgb := "RGB(0, 0, 0)" } ∧
    findClosestColorName nearest0 "red" = "Unknown" ∧
    findClosestColorName nearest0 "rgb(x)" = "Unknown" :=
  claim_C9 nearest0 "red" "rgb(x)" (by decide) (by decide) (by decide) (by decide)

/-! ### Claim C6 -/

/-- C6: the gradient parser returns `none` exactly when the value is empty,
lacks the substring `gradient`, or yields fewer than two valid color stops;
in particular the one-stop value `linear-gradient(to right, red)` returns
`none`. -/
theorem claim_C6 (v : String) :
    (extractGradientInfo v = none ↔
      v = "" ∨ strIncludes v "gradient" = false ∨ (extractColorStops v).length < 2) ∧
    extractGradientInfo "linear-gradient(to right, red)" = none := by
  constructor
  · by_cases hv : v = ""
    · simp [extractGradientInfo, hv]
    · by_cases hg : strIncludes v "gradient" = true
      · by_cases hl : (extractColorStops v).length < 2
        · simp [extractGradientInfo, hv, hg, hl]
        · simp [extractGradientInfo, hv, hg, hl]
      · have hg' : strIncludes v "gradient" = false := by
          revert hg
          cases strIncludes v "gradient" <;> simp
        simp [extractGradientInfo, hv, hg']
  · decide

/-! ### Claim C3 -/

/-- Characters of a string concatenation. -/
theorem strData_append (s t : String) : (s ++ t).data = s.data ++ t.data := rfl

/-- `componentToHex` of a channel value below 256 is two lowercase hex
digits. -/
theorem componentToHex_canonical :
    ∀ n < 256, (componentToHex n).data.length = 2 ∧
      (componentToHex n).data.all isLowerHexDigit = true := by decide

/-- C3 counterexample: the collected value `#abc` is copied verbatim into the
`hex` field, which therefore does not match `#[0-9a-f]{6}` and differs from
the hex produced for `#aabbcc`. -/
theorem claim_C3_counterexample :
    (extractColors nearest0 snapHex3).map ColorRecord.hex = ["#abc"] ∧
    isCanonicalHex6 "#abc" = false ∧
    (extractColors nearest0 snapHex6).map ColorRecord.hex = ["#aabbcc"] ∧
    "#abc" ≠ "#aabbcc" := by
  refine ⟨by decide, by decide, by decide, by decide⟩

/-- C3 amended: a `#`-prefixed collected value is passed through verbatim as
the `hex` field (no normalization of the hex field at all), while an
`rgb`-prefixed value with at least three parsed components, each below 256,
produces a canonical `#[0-9a-f]{6}` hex; the 3-digit duplication of the
claim happens only inside `hexToRgb`, i.e. in the `rgb` field, where `#abc`
and `#aabbcc` agree. -/
theorem claim_C3_amended (nearest : String → Option String) (u v : String)
    (hu : jsStartsWith u "#" = true)
    (hv : jsStartsWith v "rgb" = true)
    (hv1 : jsStartsWith v "#" = false)
    (hlen : 3 ≤ (matchDigitRuns v).length)
    (hr : decVal ((matchDigitRuns v).getD 0 "").data < 256)
    (hg : decVal ((matchDigitRuns v).getD 1 "").data < 256)
    (hb : decVal ((matchDigitRuns v).getD 2 "").data < 256) :
    (processColor nearest u).hex = u ∧
    isCanonicalHex6 (processColor nearest v).hex = true ∧
    hexToRgb "#abc" = hexToRgb "#aabbcc" := by
  refine ⟨?_, ?_, by decide⟩
  · simp [processColor, hu]
  · have hx : (processColor nearest v).hex =
        "#" ++ componentToHex (decVal ((matchDigitRuns v).getD 0 "").data) ++
        componentToHex (decVal ((matchDigitRuns v).getD 1 "").data) ++
        componentToHex (decVal ((matchDigitRuns v).getD 2 "").data) := by
      simp [processColor, hv, hv1, hlen, rgbToHex]
    rw [hx]
    obtain ⟨l1, a1⟩ := componentToHex_canonical _ hr
    obtain ⟨l2, a2⟩ := componentToHex_canonical _ hg
    obtain ⟨l3, a3⟩ := componentToHex_canonical _ hb
    rw [isCanonicalHex6]
    have hdata : ("#" ++ componentToHex (decVal ((matchDigitRuns v).getD 0 "").data) ++
        componentToHex (decVal ((matchDigitRuns v).getD 1 "").data) ++
        componentToHex (decVal ((matchDigitRuns v).getD 2 "").data)).data =
        '#' :: ((componentToHex (decVal ((matchDigitRuns v).getD 0 "").data)).data ++
          (componentToHex (decVal ((matchDigitRuns v).getD 1 "").data)).data ++
          (componentToHex (decVal ((matchDigitRuns v).getD 2 "").data)).data) := by
      simp [strData_append, List.append_assoc]
    rw [hdata]
    simp only [List.all_append, List.length_append, l1, l2, l3, a1, a2, a3]
    decide

/-- Witness for C3 amended at `#abc` and `rgb(1, 2, 3)`. -/
theorem claim_C3_amended_witness :
    (processColor nearest0 "#abc").hex = "#abc" ∧
    isCanonicalHex6 (processColor nearest0 "rgb(1, 2, 3)").hex = true ∧
    hexToRgb "#abc" = hexToRgb "#aabbcc" :=
  claim_C3_amended nearest0 "#abc" "rgb(1, 2, 3)" (by decide) (by decide)
    (by decide) (by decide) (by decide) (by decide) (by decide)

/-! ### Claim C7 -/

theorem strMk_data (s : String) : String.mk s.data = s := rfl

theorem strData_push (s : String) (c : Char) : (s.push c).data = s.data ++ [c] := rfl

theorem cutAtTopCommas_ne_nil (d : Int) (l : List Char) : cutAtTopCommas d l ≠ [] := by
  cases l with
  | nil => simp [cutAtTopCommas]
  | cons c rest =>
    simp only [cutAtTopCommas]
    split
    · simp
    · split <;> simp

theorem dropTrailingBlank_cons (s : String) (l : List String) (h : l ≠ []) :
    dropTrailingBlank (s :: l) = s :: dropTrailingBlank l := by
  cases l with
  | nil => exact absurd rfl h
  | cons a t => rfl

/-- Closed form of the tokenizer loop: the output is the accumulated parts
followed by the trimmed depth-0 comma segments of the remaining input, the
first of which is glued to the pending accumulator. -/
theorem splitTopLevelAux_closed (cs : List Char) :
    ∀ (parts : List String) (cur : String) (d : Int),
    splitTopLevelAux cs parts cur d =
      parts ++ dropTrailingBlank ((consHead cur.data (cutAtTopCommas d cs)).map
        (fun seg => jsTrim (String.mk seg))) := by
  induction cs with
  | nil =>
    intro parts cur d
    by_cases h : jsTrim cur = ""
    · simp [splitTopLevelAux, cutAtTopCommas, consHead, dropTrailingBlank, strMk_data, h]
    · simp [splitTopLevelAux, cutAtTopCommas, consHead, dropTrailingBlank, strMk_data, h]
  | cons c rest ih =>
    intro parts cur d
    by_cases h1 : c = '('
    · subst h1
      cases hc : cutAtTopCommas (d + 1) rest with
      | nil => exact absurd hc (cutAtTopCommas_ne_nil _ _)
      | cons seg segs =>
        have hcut : cutAtTopCommas d ('(' :: rest) = ('(' :: seg) :: segs := by
          simp only [cutAtTopCommas]
          rw [if_neg (by simp)]
          simp [hc]
        have hstep : splitTopLevelAux ('(' :: rest) parts cur d =
            splitTopLevelAux rest parts (cur.push '(') (d + 1) := by
          simp [splitTopLevelAux]
        rw [hcut, hstep, ih, strData_push, hc]
        simp [consHead, List.append_assoc]
    · by_cases h2 : c = ')'
      · subst h2
        cases hc : cutAtTopCommas (d - 1) rest with
        | nil => exact absurd hc (cutAtTopCommas_ne_nil _ _)
        | cons seg segs =>
          have hcut : cutAtTopCommas d (')' :: rest) = (')' :: seg) :: segs := by
            simp only [cutAtTopCommas]
            rw [if_neg (by simp)]
            simp [hc]
          have hstep : splitTopLevelAux (')' :: rest) parts cur d =
              splitTopLevelAux rest parts (cur.push ')') (d - 1) := by
            simp [splitTopLevelAux]
          rw [hcut, hstep, ih, strData_push, hc]
          simp [consHead, List.append_assoc]
      · by_cases h3 : c = ',' ∧ d = 0
        · obtain ⟨hc3, hd0⟩ := h3
          subst hc3
          subst hd0
          cases hc : cutAtTopCommas 0 rest with
          | nil => exact absurd hc (cutAtTopCommas_ne_nil _ _)
          | cons seg segs =>
            have hcut : cutAtTopCommas 0 (',' :: rest) = [] :: seg :: segs := by
              simp only [cutAtTopCommas]
              rw [if_pos (by simp)]
              rw [hc]
            have hstep : splitTopLevelAux (',' :: rest) parts cur 0 =
                splitTopLevelAux rest (parts ++ [jsTrim cur]) "" 0 := by
              simp [splitTopLevelAux]
            rw [hcut, hstep, ih]
            have hne : ((consHead ("" : String).data (cutAtTopCommas 0 rest)).map
                (fun seg => jsTrim (String.mk seg))) =
                (seg :: segs).map (fun seg => jsTrim (String.mk seg)) := by
              rw [hc]
              simp [consHead]
            rw [hne]
            simp only [consHead, List.map_cons, List.append_nil, strMk_data]
            rw [dropTrailingBlank_cons (jsTrim cur) _ (by simp)]
            simp [List.append_assoc]
        · cases hc : cutAtTopCommas d rest with
          | nil => exact absurd hc (cutAtTopCommas_ne_nil _ _)
          | cons seg segs =>
            have hcut : cutAtTopCommas d (c :: rest) = (c :: seg) :: segs := by
              simp only [cutAtTopCommas]
              rw [if_neg h3]
              simp [h1, h2, hc]
            have hstep : splitTopLevelAux (c :: rest) parts cur d =
                splitTopLevelAux rest parts (cur.push c) d := by
              simp [splitTopLevelAux, h1, h2, h3]
            rw [hcut, hstep, ih, strData_push, hc]
            simp [consHead, List.append_assoc]

/-- C7: the tokenizer separates a value exactly at the commas whose prefix
has parenthesis depth 0 (scanning left to right, `(` incrementing and `)`
decrementing the depth), each segment trimmed; on
`rgba(1,2,3,0.5), #fff` it yields exactly the two segments
`rgba(1,2,3,0.5)` and `#fff`, never splitting inside the function call. -/
theorem claim_C7 :
    (∀ s : String, splitTopLevel s = splitTopLevelSpec s) ∧
    splitTopLevel "rgba(1,2,3,0.5), #fff" = ["rgba(1,2,3,0.5)", "#fff"] := by
  constructor
  · intro s
    rw [splitTopLevel, splitTopLevelAux_closed, splitTopLevelSpec]
    cases hc : cutAtTopCommas 0 s.data with
    | nil => exact absurd hc (cutAtTopCommas_ne_nil _ _)
    | cons seg segs =>
      simp [consHead]
  · decide

/-! ### Sorting and deduplication lemmas -/

theorem jsOrderedInsert_perm (r : α → α → Bool) (x : α) :
    ∀ l : List α, List.Perm (jsOrderedInsert r x l) (x :: l) := by
  intro l
  induction l with
  | nil => exact List.Perm.refl _
  | cons y ys ih =>
    rw [jsOrderedInsert]
    by_cases h : r x y = true
    · rw [if_pos h]
    · rw [if_neg h]
      exact List.Perm.trans (List.Perm.cons y ih) (List.Perm.swap x y ys)

theorem jsSort_perm (r : α → α → Bool) : ∀ l : List α, List.Perm (jsSort r l) l := by
  intro l
  induction l with
  | nil => exact List.Perm.refl _
  | cons x xs ih =>
    exact List.Perm.trans (jsOrderedInsert_perm r x (jsSort r xs)) (List.Perm.cons x ih)

theorem mem_jsSort (r : α → α → Bool) (l : List α) (x : α) :
    x ∈ jsSort r l ↔ x ∈ l :=
  (jsSort_perm r l).mem_iff

theorem mem_jsOrderedInsert (r : α → α → Bool) (x y : α) (l : List α) :
    y ∈ jsOrderedInsert r x l ↔ y = x ∨ y ∈ l := by
  rw [(jsOrderedInsert_perm r x l).mem_iff, List.mem_cons]

theorem pairwise_jsOrderedInsert (r : α → α → Bool) (P : α → Prop)
    (htotal : ∀ a b, P a → P b → r a b = false → r b a = true)
    (htrans : ∀ a b c, P a → P b → P c → r a b = true → r b c = true → r a c = true)
    (x : α) (hx : P x) :
    ∀ l : List α, (∀ y ∈ l, P y) → l.Pairwise (fun a b => r a b = true) →
      (jsOrderedInsert r x l).Pairwise (fun a b => r a b = true) := by
  intro l
  induction l with
  | nil =>
    intro _ _
    simp [jsOrderedInsert]
  | cons y ys ih =>
    intro hl hp
    rw [List.pairwise_cons] at hp
    rw [jsOrderedInsert]
    by_cases h : r x y = true
    · rw [if_pos h]
      rw [List.pairwise_cons]
      refine ⟨?_, List.pairwise_cons.mpr hp⟩
      intro z hz
      rcases List.mem_cons.mp hz with hzy | hzs
      · exact hzy ▸ h
      · exact htrans x y z hx (hl y (by simp)) (hl z (by simp [hzs])) h (hp.1 z hzs)
    · rw [if_neg h]
      rw [List.pairwise_cons]
      constructor
      · intro z hz
        rcases (mem_jsOrderedInsert r x z ys).mp hz with hzx | hzs
        · rw [hzx]
          exact htotal x y hx (hl y (by simp)) (by revert h; cases r x y <;> simp)
        · exact hp.1 z hzs
      · exact ih (fun a ha => hl a (by simp [ha])) hp.2

theorem pairwise_jsSort (r : α → α → Bool) (P : α → Prop)
    (htotal : ∀ a b, P a → P b → r a b = false → r b a = true)
    (htrans : ∀ a b c, P a → P b → P c → r a b = true → r b c = true → r a c = true) :
    ∀ l : List α, (∀ y ∈ l, P y) →
      (jsSort r l).Pairwise (fun a b => r a b = true) := by
  intro l
  induction l with
  | nil =>
    intro _
    simp [jsSort]
  | cons x xs ih =>
    intro hl
    rw [jsSort]
    refine pairwise_jsOrderedInsert r P htotal htrans x (hl x (by simp)) _ ?_ ?_
    · intro y hy
      exact hl y (by simp [(mem_jsSort r xs y).mp hy])
    · exact ih (fun y hy => hl y (by simp [hy]))

theorem dedupByKey_not_seen (key : α → String) :
    ∀ (l : List α) (seen : List String) (c : α),
      c ∈ dedupByKey key seen l → key c ∉ seen := by
  intro l
  induction l with
  | nil =>
    intro seen c hc
    simp [dedupByKey] at hc
  | cons d rest ih =>
    intro seen c hc
    rw [dedupByKey] at hc
    by_cases h : key d ∈ seen
    · rw [if_pos h] at hc
      exact ih seen c hc
    · rw [if_neg h] at hc
      rcases List.mem_cons.mp hc with hcd | hcr
      · exact hcd ▸ h
      · have := ih (key d :: seen) c hcr
        intro hmem
        exact this (by simp [hmem])

theorem dedupByKey_nodup (key : α → String) :
    ∀ (l : List α) (seen : List String),
      ((dedupByKey key seen l).map key).Nodup := by
  intro l
  induction l with
  | nil =>
    intro seen
    simp [dedupByKey]
  | cons d rest ih =>
    intro seen
    rw [dedupByKey]
    by_cases h : key d ∈ seen
    · rw [if_pos h]
      exact ih seen
    · rw [if_neg h]
      rw [List.map_cons, List.nodup_cons]
      refine ⟨?_, ih (key d :: seen)⟩
      intro hmem
      obtain ⟨c, hc, hkc⟩ := List.mem_map.mp hmem
      have := dedupByKey_not_seen key rest (key d :: seen) c hc
      exact this (by simp [hkc])

theorem dedupByKey_find (key : α → String) :
    ∀ (l : List α) (seen : List String) (c : α),
      c ∈ dedupByKey key seen l →
      l.find? (fun d => key d == key c) = some c := by
  intro l
  induction l with
  | nil =>
    intro seen c hc
    simp [dedupByKey] at hc
  | cons d rest ih =>
    intro seen c hc
    rw [dedupByKey] at hc
    by_cases h : key d ∈ seen
    · rw [if_pos h] at hc
      have hnc := dedupByKey_not_seen key rest seen c hc
      have hne : key d ≠ key c := fun heq => hnc (heq ▸ h)
      rw [List.find?_cons]
      rw [show (key d == key c) = false by simpa using hne]
      exact ih seen c hc
    · rw [if_neg h] at hc
      rcases List.mem_cons.mp hc with hcd | hcr
      · subst hcd
        rw [List.find?_cons]
        simp
      · have hnc := dedupByKey_not_seen key rest (key d :: seen) c hcr
        have hne : key d ≠ key c := fun heq => hnc (by simp [heq])
        rw [List.find?_cons]
        rw [show (key d == key c) = false by simpa using hne]
        exact ih (key d :: seen) c hcr

/-! ### Claim C5 -/

/-- C5: the hex fields of the color extraction result are pairwise distinct,
and every record in the result is exactly the FIRST processed record carrying
its hex: later occurrences of an equal hex are dropped even when the original
textual forms differed. -/
theorem claim_C5 (nearest : String → Option String) (snap : List (String → String)) :
    ((extractColors nearest snap).map ColorRecord.hex).Nodup ∧
    ∀ c ∈ extractColors nearest snap,
      ((extractColorsRaw snap).map (processColor nearest)).find?
        (fun d => d.hex == c.hex) = some c := by
  have hunfold : extractColors nearest snap =
      jsSort brightnessLeB (dedupByKey ColorRecord.hex []
        ((extractColorsRaw snap).map (processColor nearest))) := rfl
  constructor
  · rw [hunfold]
    have hperm := (jsSort_perm brightnessLeB (dedupByKey ColorRecord.hex []
      ((extractColorsRaw snap).map (processColor nearest)))).map ColorRecord.hex
    exact (List.Perm.nodup_iff hperm).mpr (dedupByKey_nodup ColorRecord.hex _ _)
  · intro c hc
    rw [hunfold, mem_jsSort] at hc
    exact dedupByKey_find ColorRecord.hex _ [] c hc

/-- Witness for C5: `rgb(1, 2, 3)` and `rgb(1,2,3)` normalize to the same
hex; the survivor is the first textual form. -/
theorem claim_C5_witness :
    ((extractColors nearest0 snapC5).map ColorRecord.hex).Nodup ∧
    ((extractColorsRaw snapC5).map (processColor nearest0)).find?
      (fun d => d.hex == (⟨"Unknown", "#010203", "rgb(1, 2, 3)"⟩ : ColorRecord).hex) =
      some ⟨"Unknown", "#010203", "rgb(1, 2, 3)"⟩ :=
  ⟨(claim_C5 nearest0 snapC5).1,
   (claim_C5 nearest0 snapC5).2 ⟨"Unknown", "#010203", "rgb(1, 2, 3)"⟩ (by decide)⟩

/-! ### Claim C8 -/

/-- C8 counterexample: with the unparsable record `#zzz` between them, the
comparator returns 0 against it and white stays before black in the output,
so the result is not sorted by brightness (the claimed black-before-white
order fails). -/
theorem claim_C8_counterexample :
    (extractColors nearest0 snapC8).map ColorRecord.hex = ["#ffffff", "#zzz", "#000000"] ∧
    ¬ List.Pairwise recBrightLE (extractColors nearest0 snapC8) := by
  have heq : extractColors nearest0 snapC8 =
      [⟨"Unknown", "#ffffff", "RGB(255, 255, 255)"⟩,
       ⟨"Unknown", "#zzz", "RGB(NaN, NaN, NaN)"⟩,
       ⟨"Unknown", "#000000", "RGB(0, 0, 0)"⟩] := by decide
  constructor
  · rw [heq]
    rfl
  · rw [heq]
    intro h
    rw [List.pairwise_cons] at h
    have hwb := h.1 ⟨"Unknown", "#000000", "RGB(0, 0, 0)"⟩ (by simp)
    have hle := hwb (255, 255, 255) (0, 0, 0) (by decide) (by decide)
    exact absurd hle (by decide)

/-- C8 amended: whenever every record of the result has parsable RGB
components, the result is sorted non-decreasing by the brightness
`299*R + 587*G + 114*B` (the source divides by 1000, which preserves the
comparator sign); an unparsable record, however, makes the comparator return
0 and can leave the list unsorted, so the claim holds only under the
all-parsable hypothesis. -/
theorem claim_C8_amended (nearest : String → Option String)
    (snap : List (String → String))
    (hall : ∀ c ∈ extractColors nearest snap, (parseRgb c.rgb).isSome = true) :
    List.Pairwise (fun a b => recBrightness a ≤ recBrightness b)
      (extractColors nearest snap) := by
  have hunfold : extractColors nearest snap =
      jsSort brightnessLeB (dedupByKey ColorRecord.hex []
        ((extractColorsRaw snap).map (processColor nearest))) := rfl
  have hallu : ∀ c ∈ dedupByKey ColorRecord.hex []
      ((extractColorsRaw snap).map (processColor nearest)),
      (parseRgb c.rgb).isSome = true := by
    intro c hc
    apply hall
    rw [hunfold, mem_jsSort]
    exact hc
  have htot : ∀ a b : ColorRecord, (parseRgb a.rgb).isSome = true →
      (parseRgb b.rgb).isSome = true → brightnessLeB a b = false →
      brightnessLeB b a = true := by
    intro a b hpa hpb hab
    obtain ⟨x, hx⟩ := Option.isSome_iff_exists.mp hpa
    obtain ⟨y, hy⟩ := Option.isSome_iff_exists.mp hpb
    simp only [brightnessLeB, hx, hy, decide_eq_false_iff_not, not_le] at hab
    simp only [brightnessLeB, hx, hy, decide_eq_true_eq]
    exact le_of_lt hab
  have htrn : ∀ a b c : ColorRecord, (parseRgb a.rgb).isSome = true →
      (parseRgb b.rgb).isSome = true → (parseRgb c.rgb).isSome = true →
      brightnessLeB a b = true → brightnessLeB b c = true →
      brightnessLeB a c = true := by
    intro a b c hpa hpb hpc hab hbc
    obtain ⟨x, hx⟩ := Option.isSome_iff_exists.mp hpa
    obtain ⟨y, hy⟩ := Option.isSome_iff_exists.mp hpb
    obtain ⟨z, hz⟩ := Option.isSome_iff_exists.mp hpc
    simp only [brightnessLeB, hx, hy, hz, decide_eq_true_eq] at hab hbc ⊢
    exact le_trans hab hbc
  have hpw := pairwise_jsSort brightnessLeB
    (fun c => (parseRgb c.rgb).isSome = true) htot htrn
    (dedupByKey ColorRecord.hex [] ((extractColorsRaw snap).map (processColor nearest)))
    hallu
  rw [hunfold]
  refine List.Pairwise.imp_of_mem ?_ hpw
  intro a b ha hb hr
  have hpa := hallu a ((mem_jsSort _ _ _).mp ha)
  have hpb := hallu b ((mem_jsSort _ _ _).mp hb)
  obtain ⟨x, hx⟩ := Option.isSome_iff_exists.mp hpa
  obtain ⟨y, hy⟩ := Option.isSome_iff_exists.mp hpb
  simp only [brightnessLeB, hx, hy, decide_eq_true_eq] at hr
  simp only [recBrightness, hx, hy]
  exact hr

/-- Witness for C8 amended: white collected before black, both parsable,
comes out black first. -/
theorem claim_C8_amended_witness :
    List.Pairwise (fun a b => recBrightness a ≤ recBrightness b)
      (extractColors nearest0 snapBW) :=
  claim_C8_amended nearest0 snapBW (by decide)

/-! ### Claim C4 -/

theorem leRep_iff (x y : Int × Int) : leRep x y = true ↔ ratOfRep x ≤ ratOfRep y := by
  rcases x with ⟨m1, e1⟩
  rcases y with ⟨m2, e2⟩
  rw [leRep, ratOfRep, ratOfRep]
  dsimp only
  have hne : (10 : ℚ) ≠ 0 := by norm_num
  by_cases h : e1 ≤ e2
  · rw [if_pos h]
    have hp : (0 : ℚ) < (10 : ℚ) ^ e1 := zpow_pos (by norm_num) e1
    have hk : (((e2 - e1).toNat : Int)) = e2 - e1 := Int.toNat_of_nonneg (by omega)
    have hcast : ((m2 * 10 ^ (e2 - e1).toNat : Int) : ℚ) =
        (m2 : ℚ) * (10 : ℚ) ^ (e2 - e1) := by
      push_cast
      rw [← zpow_natCast (10 : ℚ) (e2 - e1).toNat, hk]
    have hsplit : (m2 : ℚ) * (10 : ℚ) ^ e2 =
        ((m2 : ℚ) * (10 : ℚ) ^ (e2 - e1)) * (10 : ℚ) ^ e1 := by
      rw [mul_assoc, ← zpow_add₀ hne]
      have he : e2 - e1 + e1 = e2 := by omega
      rw [he]
    rw [decide_eq_true_eq]
    constructor
    · intro hle
      rw [hsplit]
      have hleq : ((m1 : ℚ)) ≤ ((m2 * 10 ^ (e2 - e1).toNat : Int) : ℚ) := by
        exact_mod_cast hle
      rw [hcast] at hleq
      exact mul_le_mul_of_nonneg_right hleq (le_of_lt hp)
    · intro hle
      rw [hsplit] at hle
      have hleq := le_of_mul_le_mul_right hle hp
      rw [← hcast] at hleq
      exact_mod_cast hleq
  · rw [if_neg h]
    have hp : (0 : ℚ) < (10 : ℚ) ^ e2 := zpow_pos (by norm_num) e2
    have hk : (((e1 - e2).toNat : Int)) = e1 - e2 := Int.toNat_of_nonneg (by omega)
    have hcast : ((m1 * 10 ^ (e1 - e2).toNat : Int) : ℚ) =
        (m1 : ℚ) * (10 : ℚ) ^ (e1 - e2) := by
      push_cast
      rw [← zpow_natCast (10 : ℚ) (e1 - e2).toNat, hk]
    have hsplit : (m1 : ℚ) * (10 : ℚ) ^ e1 =
        ((m1 : ℚ) * (10 : ℚ) ^ (e1 - e2)) * (10 : ℚ) ^ e2 := by
      rw [mul_assoc, ← zpow_add₀ hne]
      have he : e1 - e2 + e2 = e1 := by omega
      rw [he]
    rw [decide_eq_true_eq]
    constructor
    · intro hle
      rw [hsplit]
      have hleq : ((m1 * 10 ^ (e1 - e2).toNat : Int) : ℚ) ≤ ((m2 : ℚ)) := by
        exact_mod_cast hle
      rw [hcast] at hleq
      exact mul_le_mul_of_nonneg_right hleq (le_of_lt hp)
    · intro hle
      rw [hsplit] at hle
      have hleq := le_of_mul_le_mul_right hle hp
      rw [← hcast] at hleq
      exact_mod_cast hleq

/-- C4 counterexample: a group with unparsable font size `large` inserted
before a numeric group keeps its position (the comparator NaN is treated as
0 by the sort), so it is NOT placed after the numerically-sized groups. -/
theorem claim_C4_counterexample :
    (extractTypography [tpNaN, tpTen]).typography.map TGroup.fontSize = ["large", "10px"] ∧
    jsParseFloat "large" = none ∧
    jsParseFloat "10px" = some 10 := by
  refine ⟨by decide, ?_, ?_⟩
  · have h : jsParseFloatRep "large" = none := by decide
    simp [jsParseFloat, h]
  · have h : jsParseFloatRep "10px" = some (10, 0) := by decide
    simp [jsParseFloat, h, ratOfRep]

/-- C4 amended: the group list is sorted with comparator
`parseFloat(b) - parseFloat(a)` where a NaN comparator value keeps the pair
in place; hence when every group's font size parses, the list is
non-increasing in the parsed value, but a group with unparsable size stays
in its insertion position instead of sorting last. -/
theorem claim_C4_amended (snap : List TElement)
    (hall : ∀ g ∈ (extractTypography snap).typography,
      (jsParseFloat g.fontSize).isSome = true) :
    List.Pairwise (fun a b => typRank b ≤ typRank a)
      (extractTypography snap).typography := by
  have hunfold : (extractTypography snap).typography =
      jsSort typCmpLeB (((snap.foldl typStep ⟨[], [], 0⟩).groups).map
        (fun kg => kg.2)) := rfl
  have hallu : ∀ g ∈ ((snap.foldl typStep ⟨[], [], 0⟩).groups).map (fun kg => kg.2),
      (jsParseFloatRep g.fontSize).isSome = true := by
    intro g hg
    have := hall g (by rw [hunfold, mem_jsSort]; exact hg)
    simpa [jsParseFloat] using this
  have htot : ∀ a b : TGroup, (jsParseFloatRep a.fontSize).isSome = true →
      (jsParseFloatRep b.fontSize).isSome = true → typCmpLeB a b = false →
      typCmpLeB b a = true := by
    intro a b hpa hpb hab
    obtain ⟨x, hx⟩ := Option.isSome_iff_exists.mp hpa
    obtain ⟨y, hy⟩ := Option.isSome_iff_exists.mp hpb
    simp only [typCmpLeB, hx, hy] at hab ⊢
    rw [leRep_iff]
    have : ¬ (ratOfRep y ≤ ratOfRep x) := fun hc => by
      rw [← leRep_iff] at hc
      rw [hc] at hab
      cases hab
    exact le_of_not_le this
  have htrn : ∀ a b c : TGroup, (jsParseFloatRep a.fontSize).isSome = true →
      (jsParseFloatRep b.fontSize).isSome = true →
      (jsParseFloatRep c.fontSize).isSome = true →
      typCmpLeB a b = true → typCmpLeB b c = true → typCmpLeB a c = true := by
    intro a b c hpa hpb hpc hab hbc
    obtain ⟨x, hx⟩ := Option.isSome_iff_exists.mp hpa
    obtain ⟨y, hy⟩ := Option.isSome_iff_exists.mp hpb
    obtain ⟨z, hz⟩ := Option.isSome_iff_exists.mp hpc
    simp only [typCmpLeB, hx, hy, hz] at hab hbc ⊢
    rw [leRep_iff] at hab hbc ⊢
    exact le_trans hbc hab
  have hpw := pairwise_jsSort typCmpLeB
    (fun g => (jsParseFloatRep g.fontSize).isSome = true) htot htrn
    (((snap.foldl typStep ⟨[], [], 0⟩).groups).map (fun kg => kg.2)) hallu
  rw [hunfold]
  refine List.Pairwise.imp_of_mem ?_ hpw
  intro a b ha hb hr
  have hpa := hallu a ((mem_jsSort _ _ _).mp ha)
  have hpb := hallu b ((mem_jsSort _ _ _).mp hb)
  obtain ⟨x, hx⟩ := Option.isSome_iff_exists.mp hpa
  obtain ⟨y, hy⟩ := Option.isSome_iff_exists.mp hpb
  simp only [typCmpLeB, hx, hy] at hr
  rw [leRep_iff] at hr
  simp only [typRank, jsParseFloat, hx, hy, Option.map_some, Option.getD_some]
  exact hr

/-- Witness for C4 amended: `10px` inserted before `20px` comes out
`20px` first. -/
theorem claim_C4_amended_witness :
    List.Pairwise (fun a b => typRank b ≤ typRank a)
      (extractTypography [tpTen, tpTwenty]).typography :=
  claim_C4_amended [tpTen, tpTwenty] (by decide)

/-! ### Claim C2 -/

/-- C2: two `p` elements whose computed values of the five grouping
properties agree collapse into the single group created by the first element
with `count = 2`, and `duplicatesRemoved` is 1 — regardless of their
`className`s and of the three non-grouping properties, which are not part of
the grouping key. -/
theorem claim_C2 (e1 e2 : TElement)
    (ht1 : jsToLower e1.tagName = "p") (ht2 : jsToLower e2.tagName = "p")
    (hff : e2.style "font-family" = e1.style "font-family")
    (hfs : e2.style "font-size" = e1.style "font-size")
    (hfw : e2.style "font-weight" = e1.style "font-weight")
    (hlh : e2.style "line-height" = e1.style "line-height")
    (hls : e2.style "letter-spacing" = e1.style "letter-spacing")
    (_hcn : jsTrim e1.className ≠ jsTrim e2.className) :
    (extractTypography [e1, e2]).typography = [{ mkGroupOf e1 with count := 2 }] ∧
    (extractTypography [e1, e2]).duplicatesRemoved = 1 := by
  have htag1 : elTag e1 = "p" := ht1
  have htag2 : elTag e2 = "p" := ht2
  have hkey : elKey e2 = elKey e1 := by
    simp only [elKey, groupKey, computeStyle, elTag, ht1, ht2, hff, hfs, hfw, hlh, hls]
  have hstep1 : typStep ⟨[], [], 0⟩ e1 = ⟨[(elKey e1, mkGroupOf e1)], [("p", 1)], 0⟩ := by
    simp [typStep, htag1, relevantTags, assocFind, bumpTag]
  have hstep2 : typStep ⟨[(elKey e1, mkGroupOf e1)], [("p", 1)], 0⟩ e2 =
      ⟨[(elKey e1, { mkGroupOf e1 with count := 2 })], [("p", 2)], 1⟩ := by
    simp [typStep, htag2, hkey, relevantTags, assocFind, assocUpdate, bumpTag,
      mkGroupOf, mkGroup]
  constructor
  · simp only [extractTypography, List.foldl_cons, List.foldl_nil, hstep1, hstep2]
    simp [jsSort, jsOrderedInsert]
  · simp only [extractTypography, List.foldl_cons, List.foldl_nil, hstep1, hstep2]

/-- Witness for C2 at two concrete `p` elements sharing a style accessor but
with different classes. -/
theorem claim_C2_witness :
    (extractTypography [tpC2a, tpC2b]).typography = [{ mkGroupOf tpC2a with count := 2 }] ∧
    (extractTypography [tpC2a, tpC2b]).duplicatesRemoved = 1 :=
  claim_C2 tpC2a tpC2b (by decide) (by decide) rfl rfl rfl rfl rfl (by decide)

/-! ### Claim C10 -/

theorem assocFind_append_some {α : Type} {k : String} {l₁ : List (String × α)} {v : α}
    (l₂ : List (String × α)) (h : assocFind k l₁ = some v) :
    assocFind k (l₁ ++ l₂) = some v := by
  induction l₁ with
  | nil => simp [assocFind] at h
  | cons p rest ih =>
    rcases p with ⟨k', w⟩
    by_cases hkk : k' = k
    · rw [assocFind, if_pos hkk] at h
      rw [List.cons_append, assocFind, if_pos hkk]
      exact h
    · rw [assocFind, if_neg hkk] at h
      rw [List.cons_append, assocFind, if_neg hkk]
      exact ih h

theorem assocFind_append_none {α : Type} {k : String} {l₁ : List (String × α)}
    (l₂ : List (String × α)) (h : assocFind k l₁ = none) :
    assocFind k (l₁ ++ l₂) = assocFind k l₂ := by
  induction l₁ with
  | nil => simp
  | cons p rest ih =>
    rcases p with ⟨k', w⟩
    by_cases hkk : k' = k
    · rw [assocFind, if_pos hkk] at h
      cases h
    · rw [assocFind, if_neg hkk] at h
      rw [List.cons_append, assocFind, if_neg hkk]
      exact ih h

theorem assocFind_update_self {α : Type} (k : String) (f : α → α) (l : List (String × α)) :
    assocFind k (assocUpdate k f l) = (assocFind k l).map f := by
  induction l with
  | nil => simp [assocFind, assocUpdate]
  | cons p rest ih =>
    rcases p with ⟨k', v⟩
    by_cases h : k' = k
    · simp [assocFind, assocUpdate, h]
    · simp [assocFind, assocUpdate, h, ih]

theorem assocFind_update_ne {α : Type} (k k' : String) (h : k' ≠ k) (f : α → α)
    (l : List (String × α)) :
    assocFind k (assocUpdate k' f l) = assocFind k l := by
  induction l with
  | nil => simp [assocUpdate]
  | cons p rest ih =>
    rcases p with ⟨k'', v⟩
    by_cases h2 : k'' = k'
    · subst h2
      simp [assocFind, assocUpdate, h, ih]
    · by_cases h3 : k'' = k
      · subst h3
        simp [assocFind, assocUpdate, h2]
      · simp [assocFind, assocUpdate, h2, h3, ih]

/-- C10: after the whole element walk, the group stored under any key `k` is
exactly characterized by the FIRST considered element with that key — its
`className` and all eight property values come from that element — and its
`count` equals the total number of considered elements with that key.  In
particular, a later element matching an existing group only increments the
count and changes nothing else. -/
theorem claim_C10 (els : List TElement) (k : String) :
    assocFind k ((els.foldl typStep ⟨[], [], 0⟩).groups) = specFirstGroup els k := by
  induction els using List.reverseRecOn with
  | nil => simp [specFirstGroup, assocFind, firstGroupOf]
  | append_singleton els el ih =>
    rw [List.foldl_append, List.foldl_cons, List.foldl_nil]
    by_cases hcons : consideredTag el = true
    · have hmem : elTag el ∈ relevantTags := by
        simpa [consideredTag] using hcons
      have hfilter : (els ++ [el]).filter consideredTag =
          els.filter consideredTag ++ [el] := by
        rw [List.filter_append]
        simp [hcons]
      by_cases hk : elKey el = k
      · cases hfind : assocFind (elKey el) ((els.foldl typStep ⟨[], [], 0⟩).groups) with
        | some g =>
          have hgroups : (typStep (els.foldl typStep ⟨[], [], 0⟩) el).groups =
              assocUpdate (elKey el) (fun g0 => { g0 with count := g0.count + 1 })
                (els.foldl typStep ⟨[], [], 0⟩).groups := by
            simp [typStep, hmem, hfind]
          rw [hgroups, hk, assocFind_update_self]
          rw [hk] at hfind
          rw [hfind]
          have hspec : specFirstGroup els k = some g := by
            rw [← ih]
            exact hfind
          rw [specFirstGroup] at hspec
          rw [specFirstGroup, hfilter, List.filter_append]
          cases hF : (els.filter consideredTag).filter (fun e => elKey e == k) with
          | nil =>
            rw [hF] at hspec
            simp [firstGroupOf] at hspec
          | cons e es =>
            rw [hF] at hspec
            simp only [firstGroupOf, Option.some.injEq] at hspec
            simp only [List.filter_cons, List.filter_nil, hk, beq_self_eq_true, if_true]
            simp only [List.cons_append, firstGroupOf, Option.map_some, Option.some.injEq]
            rw [← hspec]
            simp [List.length_append, mkGroupOf, mkGroup]
        | none =>
          have hgroups : (typStep (els.foldl typStep ⟨[], [], 0⟩) el).groups =
              (els.foldl typStep ⟨[], [], 0⟩).groups ++ [(elKey el, mkGroupOf el)] := by
            simp [typStep, hmem, hfind]
          rw [hk] at hfind
          rw [hgroups, assocFind_append_none _ hfind]
          have hspec : specFirstGroup els k = none := by
            rw [← ih]
            exact hfind
          rw [specFirstGroup] at hspec
          rw [specFirstGroup, hfilter, List.filter_append]
          cases hF : (els.filter consideredTag).filter (fun e => elKey e == k) with
          | nil =>
            simp only [List.filter_cons, List.filter_nil, hk, beq_self_eq_true, if_true,
              List.nil_append]
            simp [assocFind, firstGroupOf, hk, mkGroupOf, mkGroup]
          | cons e es =>
            rw [hF] at hspec
            simp [firstGroupOf] at hspec
      · have hkeq : (elKey el == k) = false := by
          simp [hk]
        have hspecEq : specFirstGroup (els ++ [el]) k = specFirstGroup els k := by
          rw [specFirstGroup, specFirstGroup, hfilter, List.filter_append]
          simp [List.filter_cons, hkeq]
        rw [hspecEq, ← ih]
        cases hfind : assocFind (elKey el) ((els.foldl typStep ⟨[], [], 0⟩).groups) with
        | some g =>
          have hgroups : (typStep (els.foldl typStep ⟨[], [], 0⟩) el).groups =
              assocUpdate (elKey el) (fun g0 => { g0 with count := g0.count + 1 })
                (els.foldl typStep ⟨[], [], 0⟩).groups := by
            simp [typStep, hmem, hfind]
          rw [hgroups, assocFind_update_ne k (elKey el) hk]
        | none =>
          have hgroups : (typStep (els.foldl typStep ⟨[], [], 0⟩) el).groups =
              (els.foldl typStep ⟨[], [], 0⟩).groups ++ [(elKey el, mkGroupOf el)] := by
            simp [typStep, hmem, hfind]
          rw [hgroups]
          cases hv : assocFind k (els.foldl typStep ⟨[], [], 0⟩).groups with
          | some v => rw [assocFind_append_some _ hv]
          | none =>
            rw [assocFind_append_none _ hv]
            simp [assocFind, hk]
    · have hnot : ¬ elTag el ∈ relevantTags := by
        intro hmem
        rw [show consideredTag el = true by simp [consideredTag, hmem]] at hcons
        exact hcons rfl
      have hstep : typStep (els.foldl typStep ⟨[], [], 0⟩) el =
          els.foldl typStep ⟨[], [], 0⟩ := by
        simp [typStep, hnot]
      have hfilter : (els ++ [el]).filter consideredTag = els.filter consideredTag := by
        rw [List.filter_append]
        have : consideredTag el = false := by
          revert hcons
          cases consideredTag el <;> simp
        simp [this]
      rw [hstep, ih, specFirstGroup, specFirstGroup, hfilter]

end StyleFinder
